import Mathlib

/-!
Verification of the terminal-player repository (src/tplayer/player.py and
src/tplayer/adopters.py) against its natural-language specification.

The development shallow-embeds the three components the claims are about:

* the Frame Transcoder (`Player.convert_to_ansi`, player.py lines 109-143),
* the Cache Store (`Player.load_cache` / `Player.save_cache`, lines 60-107),
* the Playback Scheduler (`Player._play` / `Player.play` / `Player.shutdown`,
  lines 158-227),
* the Terminal Adapter (`HyperAdopter`, adopters.py lines 73-93).

Machine reals from Python are modelled as exact rationals, Python `int()`
truncation as an explicit truncation-toward-zero on `ℚ`, fallible operations
as `Except`/`Option`, and effectful code as explicit state passing or as a
trace of events.
-/

namespace TPlayer

/-! ### Python primitives -/

/-- Python `int()` applied to a float value: truncation toward zero.
For non-negative arguments this agrees with the floor used in the spec. -/
def pyInt (q : ℚ) : ℤ :=
  if q < 0 then -⌊-q⌋ else ⌊q⌋

/-! ### Frame Transcoder (`Player.convert_to_ansi`, player.py 109-143)

One input frame of the cv2 stream is modelled by `InFrame`: whether
`self.video.grab()` succeeds for it, whether `self.video.retrieve()` would
succeed for it, and the character-art string that
`image_to_ansi` produces for it (the `imwrite`/`climage.convert` pair is
absorbed into `data`, since the claims only concern which frames are kept).
The end of the stream is the end of the list: cv2 reports it as a failing
`grab`, which gives the same result as exhausting the list. -/

structure InFrame where
  grabOk : Bool
  retrieveOk : Bool
  data : String
deriving DecidableEq, Repr

/-- Value of `out_due` in player.py line 133: `int(index_in / fps_in * fps_out)`
for the input frame whose (post-increment) index is `i`. -/
def dueAt (fpsIn : ℚ) (fpsOut : ℕ) (i : ℤ) : ℤ :=
  pyInt ((i : ℚ) / fpsIn * (fpsOut : ℚ))

/-- The `while True` loop of `convert_to_ansi` (player.py 127-142), with the
loop counters `index_in`, `index_out` as explicit state.  Each emitted element
records the input index the frame came from together with its converted
string; `convert_to_ansi` itself keeps only the strings. -/
def convertLoop (fpsIn : ℚ) (fpsOut : ℕ) :
    List InFrame → ℤ → ℤ → List (ℤ × String)
  | [], _, _ => []
  | f :: rest, indexIn, indexOut =>
    if f.grabOk = false then []
    else
      if indexOut < dueAt fpsIn fpsOut (indexIn + 1) then
        if f.retrieveOk = false then []
        else (indexIn + 1, f.data) ::
          convertLoop fpsIn fpsOut rest (indexIn + 1) (indexOut + 1)
      else convertLoop fpsIn fpsOut rest (indexIn + 1) indexOut

/-- `Player.convert_to_ansi`: both counters start at `-1` (player.py 120-121)
and the returned value is the list of converted frame strings. -/
def convert_to_ansi (fpsIn : ℚ) (fpsOut : ℕ) (frames : List InFrame) :
    List String :=
  (convertLoop fpsIn fpsOut frames (-1) (-1)).map Prod.snd

/-- A stream in which every frame decodes successfully. -/
def allOk (ds : List String) : List InFrame :=
  ds.map (fun d => ⟨true, true, d⟩)

/-- Loop-counter state after processing a list of (successful) input frames,
mirroring the counter updates of `convertLoop`. -/
def loopState (fpsIn : ℚ) (fpsOut : ℕ) : List InFrame → ℤ × ℤ → ℤ × ℤ
  | [], s => s
  | _ :: rest, (indexIn, indexOut) =>
    loopState fpsIn fpsOut rest
      (indexIn + 1,
        if indexOut < dueAt fpsIn fpsOut (indexIn + 1) then indexOut + 1
        else indexOut)

/-- The value the output counter holds after the frame of index `j` has been
processed: `-1` before the first frame, `out_due j` afterwards (the latter is
proved to be the counter's value in `convertLoop_allOk_fst`). -/
def dueZ (fpsIn : ℚ) (fpsOut : ℕ) (j : ℤ) : ℤ :=
  if j < 0 then -1 else dueAt fpsIn fpsOut j

/-! ### Playback loop (`Player._play`, player.py 188-206)

The frame loop is driven by wall-clock measurements that the program reads
with `time()`; they enter the model as one rational per frame: the elapsed
time `end_time - start_time` the rendering of that frame would take.  A
dropped frame consumes its list entry without reading it, exactly as the
`continue` branch of the source never reads the clock difference.  `delta`
is the accumulated lateness (`drift` in the spec). -/

/-- One observable step of the playback loop: either the frame is skipped
(player.py 196-199) or it is rendered and the loop sleeps (200-206).  Each
event records `delta` before and after the iteration. -/
inductive LoopEv where
  | drop (deltaBefore deltaAfter : ℚ)
  | render (frame : String) (sleepDur deltaBefore deltaAfter : ℚ)
deriving DecidableEq, Repr

/-- Delta value after the iteration. -/
def LoopEv.deltaAfter : LoopEv → ℚ
  | .drop _ a => a
  | .render _ _ _ a => a

/-- The `for frame in video` loop of `_play` with `SLEEP_PER_FRAME = period`;
`video` pairs each frame string with the elapsed wall-clock time its
rendering takes. -/
def playLoop (period : ℚ) : List (String × ℚ) → ℚ → List LoopEv
  | [], _ => []
  | (frame, elapsed) :: rest, delta =>
    if period ≤ delta then
      LoopEv.drop delta (delta - period) :: playLoop period rest (delta - period)
    else
      let est := period - elapsed
      let delta' := if est < 0 then delta + (-est) else delta
      LoopEv.render frame (max est 0) delta delta' :: playLoop period rest delta'

/-! ### Session traces (`Player._play` / `Player.play` / `Player.shutdown`)

A play session is modelled as the list of externally visible calls it makes,
in order.  `KeyboardInterrupt` at an arbitrary point and a non-interrupt
exception at an arbitrary point are modelled by cutting the trace after `k`
events; `play`'s `try/except KeyboardInterrupt/else` then appends the
`shutdown` events on the interrupt and normal paths but not on the error
path (player.py 217-222 has no `finally` and no bare `except`). -/

inductive Ev where
  | adjustFont (size : ℕ)
  | settleSleep
  | restoreFont
  | convertEv
  | extractAudioEv
  | saveCacheEv
  | playsoundEv
  | renderEv (frame : String)
  | frameSleepEv (d : ℚ)
  | dropFrameEv
  | shutdownEv
deriving DecidableEq, Repr

/-- Events of one playback-loop step. -/
def evOfLoop : LoopEv → List Ev
  | .drop _ _ => [.dropFrameEv]
  | .render f s _ _ => [.renderEv f, .frameSleepEv s]

/-- Events emitted by the frame loop of `_play` (player.py 194-206). -/
def playLoopEvents (fps : ℕ) (video : List (String × ℚ)) : List Ev :=
  (playLoop (1 / (fps : ℚ)) video 0).flatMap evOfLoop

/-- Events of the cache-miss arm of `_play` (player.py 174-184): adjust the
font, settle for one second, read the terminal width, restore the font,
transcode, extract audio, save the cache. -/
def setupEvsMiss (fontSize : ℕ) : List Ev :=
  [.adjustFont fontSize, .settleSleep, .restoreFont,
   .convertEv, .extractAudioEv, .saveCacheEv]

/-- Complete event trace of `Player._play` when no exception interrupts it:
the cache-miss arm (if the lookup produced nothing), then the font
adjustment of line 186, `playsound` (line 193) and the frame loop. -/
def playCore (fontSize fps : ℕ) (missPath : Bool) (video : List (String × ℚ)) :
    List Ev :=
  (if missPath then setupEvsMiss fontSize else [])
    ++ Ev.adjustFont fontSize :: Ev.playsoundEv :: playLoopEvents fps video

/-- Events of `Player.shutdown` (player.py 224-227): the call itself and the
font restoration it performs. -/
def shutdownEvs : List Ev := [Ev.shutdownEv, Ev.restoreFont]

/-- How a session ends: `_play` runs to completion, `KeyboardInterrupt`
arrives after `k` events of `_play`, or a non-`KeyboardInterrupt` exception
is raised after `k` events of `_play`. -/
inductive ExitKind where
  | normal
  | interruptAt (k : ℕ)
  | errorAt (k : ℕ)

/-- `Player.play` (player.py 208-222): `shutdown` runs after `_play` on the
normal path (`else`) and on the interrupt path (`except KeyboardInterrupt`);
any other exception propagates without running `shutdown`. -/
def playSession (tr : List Ev) : ExitKind → List Ev
  | .normal => tr ++ shutdownEvs
  | .interruptAt k => tr.take k ++ shutdownEvs
  | .errorAt k => tr.take k

/-- Number of `restore_terminal_font_size` calls in a trace. -/
def countRestore (tr : List Ev) : ℕ := tr.count Ev.restoreFont

/-- Number of `Player.shutdown` calls in a trace. -/
def countShutdown (tr : List Ev) : ℕ := tr.count Ev.shutdownEv

/-! ### Cache Store (`Player.load_cache` / `Player.save_cache`, player.py 60-107)

The index file `cache/cache.json` is modelled by `IndexFile`: missing from
disk, present but rejected by `json.loads` (or otherwise not shaped like a
list of entry records), or parsed into a list of `CacheEntry`.  An entry's
optional `md5` field reflects the source's `cache.get("md5", None)`.  The
pickle blobs on disk are a partial map from path to the stored frame list.
Python exceptions are `Except` errors. -/

inductive PyErr where
  | jsonDecode
  | fileNotFound
deriving DecidableEq, Repr

structure CacheEntry where
  name : String
  video : String
  audio_path : String
  md5 : Option String
deriving DecidableEq, Repr

inductive IndexFile where
  | missing
  | corrupt
  | entries (es : List CacheEntry)
deriving DecidableEq, Repr

/-- The scan of player.py lines 77-82: first entry whose `md5` matches,
loading its pickle blob (`pickle.load(open(cache["video"], "rb"))`, which
raises if the blob file is gone). -/
def lookupEntries (checksum : String) (blobs : String → Option (List String)) :
    List CacheEntry → Except PyErr (Option (List String × String))
  | [] => .ok none
  | e :: rest =>
    if e.md5 = some checksum then
      match blobs e.video with
      | some d => .ok (some (d, e.audio_path))
      | none => .error .fileNotFound
    else lookupEntries checksum blobs rest

/-- `Player.load_cache` (player.py 60-82): a missing index file returns
`None`; a present index file is parsed by `json.loads`, which raises on
unparseable content; otherwise the entries are scanned for the checksum. -/
def load_cache (idx : IndexFile) (checksum : String)
    (blobs : String → Option (List String)) :
    Except PyErr (Option (List String × String)) :=
  match idx with
  | .missing => .ok none
  | .corrupt => .error .jsonDecode
  | .entries es => lookupEntries checksum blobs es

/-- Path of the pickle blob for a fresh identifier (player.py 99, 102). -/
def blobPathOf (uuid : String) : String := "./cache/" ++ uuid ++ ".pickle"

/-- Entries of an index file as `save_cache` reads them (player.py 93-97):
a missing file yields the empty list; a corrupt file raises before this
point. -/
def oldEntries : IndexFile → List CacheEntry
  | .entries es => es
  | _ => []

structure CacheState where
  index : IndexFile
  blobs : String → Option (List String)

/-- `Player.save_cache` (player.py 84-107).  `uuid` stands for the value of
`uuid4()` of that call; the checksum is `get_md5(vid_path)` of the video
whose content hash is passed in.  Reading a corrupt existing index re-raises
the `json.loads` error (line 95); otherwise the blob is written and exactly
one entry is appended before the index is rewritten. -/
def save_cache (st : CacheState) (uuid name checksum : String)
    (data : List String) (audioPath : String) : Except PyErr CacheState :=
  if st.index = .corrupt then .error .jsonDecode
  else
    .ok ⟨.entries (oldEntries st.index
        ++ [⟨name, blobPathOf uuid, audioPath, some checksum⟩]),
      fun p => if p = blobPathOf uuid then some data else st.blobs p⟩

/-- `Player._play` composed with `Player.play` (player.py 158-222): the
cache lookup decides the arm of the `try/except TypeError`; a `None` result
fails the tuple unpacking of line 171 with `TypeError`, taking the
transcode arm.  A raising lookup (corrupt index) propagates out of both
`_play` and `play` before any event, producing an empty trace without
`shutdown`.  `transcoded` is the frame sequence the transcoder would
produce paired with the rendering times; `elapsed` are the rendering times
for the cache-hit video. -/
def runPlay (idx : IndexFile) (blobs : String → Option (List String))
    (checksum : String) (transcoded : List (String × ℚ)) (elapsed : List ℚ)
    (fontSize fps : ℕ) (exit : ExitKind) : List Ev :=
  match load_cache idx checksum blobs with
  | .error _ => []
  | .ok (some (video, _)) =>
      playSession (playCore fontSize fps false (video.zip elapsed)) exit
  | .ok none => playSession (playCore fontSize fps true transcoded) exit

/-! ### Terminal Adapter (`HyperAdopter`, adopters.py 73-93)

The Hyper config is a plain text file; the adapter finds the current font
size by string surgery (adopters.py 83-84) and changes it by literal
substring replacement (87-88).  The Python string operations involved are
modelled character-exactly on `List Char`. -/

/-- Python `pat in`-style prefix test used by find/replace below. -/
def pyStartsWith : List Char → List Char → Bool
  | [], _ => true
  | _ :: _, [] => false
  | p :: ps, c :: cs => p = c && pyStartsWith ps cs

def pyFindAux (pat : List Char) : List Char → ℕ → Option ℕ
  | [], i => if pyStartsWith pat [] then some i else none
  | c :: t, i =>
    if pyStartsWith pat (c :: t) then some i else pyFindAux pat t (i + 1)

/-- Python `s.find(pat)`: index of the first occurrence, `-1` if absent. -/
def pyFind (s pat : List Char) : ℤ :=
  match pyFindAux pat s 0 with
  | some i => (i : ℤ)
  | none => -1

/-- Python slice `s[i:]` (negative indices count from the end, clamped). -/
def pySliceFrom (s : List Char) (i : ℤ) : List Char :=
  if i < 0 then s.drop (Int.toNat ((s.length : ℤ) + i)) else s.drop i.toNat

/-- Python `s.split(sep, 1)` for a one-character separator: the part before
the first occurrence, and the part after it when the separator occurs. -/
def pySplitOnceChar (sep : Char) : List Char → List Char × Option (List Char)
  | [] => ([], none)
  | c :: t =>
    if c = sep then ([], some t)
    else
      let p := pySplitOnceChar sep t
      (c :: p.1, p.2)

/-- Python `s.strip()`. -/
def pyStrip (s : List Char) : List Char :=
  ((s.dropWhile Char.isWhitespace).reverse.dropWhile Char.isWhitespace).reverse

def digitsValAux : List Char → ℕ → Option ℕ
  | [], acc => some acc
  | c :: t, acc =>
    if c.isDigit then digitsValAux t (acc * 10 + (c.toNat - 48)) else none

/-- Decimal digit run to a number; `none` on empty input or a non-digit. -/
def digitsVal : List Char → Option ℕ
  | [] => none
  | c :: t => digitsValAux (c :: t) 0

/-- Python `int(s)` on an already-stripped string: optional sign followed by
digits, `ValueError` (here `none`) otherwise. -/
def pyToInt : List Char → Option ℤ
  | '-' :: t => (digitsVal t).map (fun n => -(n : ℤ))
  | '+' :: t => (digitsVal t).map (fun n => (n : ℤ))
  | t => (digitsVal t).map (fun n => (n : ℤ))

/-- Python `s.replace(old, new)`, on fuel so that the recursion is
structural (each step consumes at least one character, so `s.length` fuel
never runs out).  Every non-overlapping occurrence is replaced, scanning
left to right.  (For the empty pattern Python would interleave `new`
everywhere; the adapter only ever replaces the nonempty pattern
`"fontSize: <n>"`, so the empty-pattern guard keeps the function total
without changing any reachable behaviour.) -/
def pyReplaceAux (old new : List Char) : ℕ → List Char → List Char
  | 0, s => s
  | _ + 1, [] => []
  | fuel + 1, c :: t =>
    if old ≠ [] ∧ pyStartsWith old (c :: t) = true then
      new ++ pyReplaceAux old new fuel ((c :: t).drop old.length)
    else c :: pyReplaceAux old new fuel t

def pyReplace (old new s : List Char) : List Char :=
  pyReplaceAux old new s.length s

/-- The literal text `"fontSize: <n>"` used in the replacement call of
adopters.py line 88. -/
def fontSizeText (n : ℤ) : List Char :=
  ("fontSize: ".data) ++ (toString n).data

/-- The expression of adopters.py lines 83-84:
`int(config[config.find("fontSize"):].split(":", 1)[-1].split(",", 1)[0].strip())`,
returning `none` where Python would raise `ValueError`. -/
def parseFontSize (config : List Char) : Option ℤ :=
  let tailCfg := pySliceFrom config (pyFind config ("fontSize".data))
  let colonSplit := pySplitOnceChar ':' tailCfg
  let afterColon :=
    match colonSplit.2 with
    | some a => a
    | none => colonSplit.1
  let beforeComma := (pySplitOnceChar ',' afterColon).1
  pyToInt (pyStrip beforeComma)

/-- State of a `HyperAdopter`: `self.config`, `self.backup_config`, and the
sequence of file contents passed to `save_config`, most recent first. -/
structure HyperState where
  config : List Char
  backup : List Char
  written : List (List Char)
deriving DecidableEq, Repr

/-- `HyperAdopter.__init__` (adopters.py 74-80): both `config` and
`backup_config` are loaded from the same untouched config file. -/
def initHyper (f : List Char) : HyperState := ⟨f, f, []⟩

/-- `HyperAdopter.adjust_terminal_font_size` (adopters.py 82-89): parse the
current size out of `self.config`; equal sizes return without writing;
otherwise replace the substring and save.  `none` models the `ValueError`
of `int()` when no font size can be parsed. -/
def adjust_terminal_font_size (st : HyperState) (fontSize : ℤ) :
    Option HyperState :=
  match parseFontSize st.config with
  | none => none
  | some cur =>
    if cur = fontSize then some st
    else
      let newCfg := pyReplace (fontSizeText cur) (fontSizeText fontSize) st.config
      some { st with config := newCfg, written := newCfg :: st.written }

/-- `HyperAdopter.restore_terminal_font_size` (adopters.py 91-93). -/
def restore_terminal_font_size (st : HyperState) : HyperState :=
  { st with config := st.backup, written := st.backup :: st.written }

/-- A sequence of `adjust_terminal_font_size` calls, stopping at the first
raised `ValueError`. -/
def runAdjusts : List ℤ → HyperState → Option HyperState
  | [], st => some st
  | n :: rest, st => (adjust_terminal_font_size st n).bind (runAdjusts rest)

/-- Does an event render a frame? -/
def isRenderEv : Ev → Bool
  | .renderEv _ => true
  | _ => false

/-- Does an event drop a frame? -/
def isDropEv : Ev → Bool
  | .dropFrameEv => true
  | _ => false

/-- Is an event a sleep of the frame loop? -/
def isFrameSleepEv : Ev → Bool
  | .frameSleepEv _ => true
  | _ => false

/-- A concrete cache entry used for evaluating the cache theorems. -/
def exampleEntry : CacheEntry :=
  ⟨"vid", "./cache/u.pickle", "./cache/a.mp3", some ("abc123")⟩

/-- A concrete blob store holding exactly `exampleEntry`'s pickle. -/
def exampleBlobs : String → Option (List String) :=
  fun p => if p = "./cache/u.pickle" then some ["frame0"] else none

/-- A concrete Hyper config used for evaluating the adapter theorems. -/
def exampleHyperConfig : List Char := "fontSize: 12,".data

/-! ## Transcoder lemmas -/

theorem pyInt_of_nonneg (q : ℚ) (h : 0 ≤ q) : pyInt q = ⌊q⌋ := by
  simp [pyInt, not_lt.mpr h]

theorem dueAt_eq_floor (fpsIn : ℚ) (fpsOut : ℕ) (hIn : 0 < fpsIn) (i : ℤ)
    (hi : 0 ≤ i) :
    dueAt fpsIn fpsOut i = ⌊(i : ℚ) * ((fpsOut : ℚ) / fpsIn)⌋ := by
  have harg : (i : ℚ) / fpsIn * (fpsOut : ℚ) = (i : ℚ) * ((fpsOut : ℚ) / fpsIn) := by
    ring
  rw [dueAt, harg, pyInt_of_nonneg]
  exact mul_nonneg (by exact_mod_cast hi) (div_nonneg (Nat.cast_nonneg _) hIn.le)

theorem dueAt_zero (fpsIn : ℚ) (fpsOut : ℕ) : dueAt fpsIn fpsOut 0 = 0 := by
  simp [dueAt, pyInt]

theorem dueAt_mono (fpsIn : ℚ) (fpsOut : ℕ) (hIn : 0 < fpsIn) {i j : ℤ}
    (hi : 0 ≤ i) (hij : i ≤ j) :
    dueAt fpsIn fpsOut i ≤ dueAt fpsIn fpsOut j := by
  rw [dueAt_eq_floor fpsIn fpsOut hIn i hi,
    dueAt_eq_floor fpsIn fpsOut hIn j (le_trans hi hij)]
  refine Int.floor_mono (mul_le_mul_of_nonneg_right ?_ ?_)
  · exact_mod_cast hij
  · exact div_nonneg (Nat.cast_nonneg _) hIn.le

theorem dueAt_succ_le (fpsIn : ℚ) (fpsOut : ℕ) (hIn : 0 < fpsIn)
    (hle : (fpsOut : ℚ) ≤ fpsIn) {i : ℤ} (hi : 0 ≤ i) :
    dueAt fpsIn fpsOut (i + 1) ≤ dueAt fpsIn fpsOut i + 1 := by
  rw [dueAt_eq_floor fpsIn fpsOut hIn (i + 1) (by omega),
    dueAt_eq_floor fpsIn fpsOut hIn i hi]
  have hq1 : (fpsOut : ℚ) / fpsIn ≤ 1 := (div_le_one hIn).mpr hle
  have hstep : ((i + 1 : ℤ) : ℚ) * ((fpsOut : ℚ) / fpsIn)
      ≤ (i : ℚ) * ((fpsOut : ℚ) / fpsIn) + 1 := by
    push_cast
    nlinarith
  calc ⌊((i + 1 : ℤ) : ℚ) * ((fpsOut : ℚ) / fpsIn)⌋
      ≤ ⌊(i : ℚ) * ((fpsOut : ℚ) / fpsIn) + 1⌋ := Int.floor_mono hstep
    _ = ⌊(i : ℚ) * ((fpsOut : ℚ) / fpsIn)⌋ + 1 := by
        exact_mod_cast Int.floor_add_int ((i : ℚ) * ((fpsOut : ℚ) / fpsIn)) 1

theorem dueZ_neg_one (fpsIn : ℚ) (fpsOut : ℕ) : dueZ fpsIn fpsOut (-1) = -1 := by
  simp [dueZ]

theorem dueZ_of_nonneg (fpsIn : ℚ) (fpsOut : ℕ) {j : ℤ} (hj : 0 ≤ j) :
    dueZ fpsIn fpsOut j = dueAt fpsIn fpsOut j := by
  simp [dueZ, not_lt.mpr hj]

theorem dueZ_mono_succ (fpsIn : ℚ) (fpsOut : ℕ) (hIn : 0 < fpsIn) {j : ℤ}
    (hj : -1 ≤ j) : dueZ fpsIn fpsOut j ≤ dueZ fpsIn fpsOut (j + 1) := by
  rcases eq_or_lt_of_le hj with h | h
  · rw [← h]
    rw [dueZ_neg_one, show (-1 : ℤ) + 1 = 0 from rfl,
      dueZ_of_nonneg fpsIn fpsOut le_rfl, dueAt_zero]
    omega
  · have hj0 : (0 : ℤ) ≤ j := by omega
    rw [dueZ_of_nonneg fpsIn fpsOut hj0, dueZ_of_nonneg fpsIn fpsOut (by omega)]
    exact dueAt_mono fpsIn fpsOut hIn hj0 (by omega)

theorem dueZ_succ_le (fpsIn : ℚ) (fpsOut : ℕ) (hIn : 0 < fpsIn)
    (hle : (fpsOut : ℚ) ≤ fpsIn) {j : ℤ} (hj : -1 ≤ j) :
    dueZ fpsIn fpsOut (j + 1) ≤ dueZ fpsIn fpsOut j + 1 := by
  rcases eq_or_lt_of_le hj with h | h
  · rw [← h]
    rw [dueZ_neg_one, show (-1 : ℤ) + 1 = 0 from rfl,
      dueZ_of_nonneg fpsIn fpsOut le_rfl, dueAt_zero]
  · have hj0 : (0 : ℤ) ≤ j := by omega
    rw [dueZ_of_nonneg fpsIn fpsOut hj0, dueZ_of_nonneg fpsIn fpsOut (by omega)]
    exact dueAt_succ_le fpsIn fpsOut hIn hle hj0

theorem convertLoop_allOk_cons (fpsIn : ℚ) (fpsOut : ℕ) (d : String)
    (rest : List InFrame) (j o : ℤ) :
    convertLoop fpsIn fpsOut (⟨true, true, d⟩ :: rest) j o
      = if o < dueAt fpsIn fpsOut (j + 1) then
          (j + 1, d) :: convertLoop fpsIn fpsOut rest (j + 1) (o + 1)
        else convertLoop fpsIn fpsOut rest (j + 1) o := by
  simp [convertLoop]

theorem range_map_shift (n : ℕ) (j : ℤ) :
    (List.range (n + 1)).map (fun k : ℕ => j + 1 + (k : ℤ))
      = (j + 1) :: (List.range n).map (fun k : ℕ => (j + 1) + 1 + (k : ℤ)) := by
  rw [List.range_succ_eq_map, List.map_cons, List.map_map]
  refine List.cons_eq_cons.mpr ⟨by norm_num, List.map_congr_left ?_⟩
  intro k _
  simp only [Function.comp_apply]
  push_cast
  ring

/-- On a fully decodable stream started in a consistent state, the input
indices that `convertLoop` retains are exactly those whose `out_due` value
strictly grows past the previous frame's: the output counter after frame
`j` always equals `dueZ j`. -/
theorem convertLoop_allOk_fst (fpsIn : ℚ) (fpsOut : ℕ) (hIn : 0 < fpsIn)
    (hle : (fpsOut : ℚ) ≤ fpsIn) :
    ∀ (ds : List String) (j : ℤ), -1 ≤ j →
      (convertLoop fpsIn fpsOut (allOk ds) j (dueZ fpsIn fpsOut j)).map Prod.fst
        = ((List.range ds.length).map (fun k : ℕ => j + 1 + (k : ℤ))).filter
            (fun i => dueZ fpsIn fpsOut (i - 1) < dueZ fpsIn fpsOut i)
  | [], j, _ => by simp [allOk, convertLoop]
  | d :: ds, j, hj => by
    have hj1 : (0 : ℤ) ≤ j + 1 := by omega
    have hdz : dueAt fpsIn fpsOut (j + 1) = dueZ fpsIn fpsOut (j + 1) :=
      (dueZ_of_nonneg fpsIn fpsOut hj1).symm
    have hcons : allOk (d :: ds) = (⟨true, true, d⟩ : InFrame) :: allOk ds := rfl
    have hpred : (j + 1 - 1 : ℤ) = j := by ring
    rw [hcons, convertLoop_allOk_cons, List.length_cons, range_map_shift,
      List.filter_cons, hdz]
    by_cases hbr : dueZ fpsIn fpsOut j < dueZ fpsIn fpsOut (j + 1)
    · have heq : dueZ fpsIn fpsOut j + 1 = dueZ fpsIn fpsOut (j + 1) :=
        le_antisymm (Int.add_one_le_iff.mpr hbr)
          (dueZ_succ_le fpsIn fpsOut hIn hle hj)
      rw [if_pos hbr, List.map_cons, heq,
        convertLoop_allOk_fst fpsIn fpsOut hIn hle ds (j + 1) (by omega)]
      have : (decide (dueZ fpsIn fpsOut (j + 1 - 1) < dueZ fpsIn fpsOut (j + 1)))
          = true := by
        rw [hpred]
        exact decide_eq_true hbr
      rw [this, if_pos rfl]
    · have heq : dueZ fpsIn fpsOut j = dueZ fpsIn fpsOut (j + 1) :=
        le_antisymm (dueZ_mono_succ fpsIn fpsOut hIn hj) (not_lt.mp hbr)
      rw [if_neg hbr, heq,
        convertLoop_allOk_fst fpsIn fpsOut hIn hle ds (j + 1) (by omega)]
      have : (decide (dueZ fpsIn fpsOut (j + 1 - 1) < dueZ fpsIn fpsOut (j + 1)))
          = false := by
        rw [hpred]
        exact decide_eq_false hbr
      rw [this]
      simp only [Bool.false_eq_true, if_false]

/-- Every retained input index is strictly larger than the input counter the
loop started from. -/
theorem convertLoop_fst_gt (fpsIn : ℚ) (fpsOut : ℕ) :
    ∀ (frames : List InFrame) (i o : ℤ) (p : ℤ × String),
      p ∈ convertLoop fpsIn fpsOut frames i o → i < p.1
  | [], i, o, p, hp => by simp [convertLoop] at hp
  | f :: rest, i, o, p, hp => by
    rw [convertLoop] at hp
    split at hp
    · simp at hp
    · split at hp
      · split at hp
        · simp at hp
        · rcases List.mem_cons.mp hp with h | h
          · rw [h]
            exact lt_add_one i
          · have := convertLoop_fst_gt fpsIn fpsOut rest (i + 1) (o + 1) p h
            omega
      · have := convertLoop_fst_gt fpsIn fpsOut rest (i + 1) o p hp
        omega

/-- Retained input indices strictly increase along the output sequence. -/
theorem convertLoop_chain (fpsIn : ℚ) (fpsOut : ℕ) :
    ∀ (frames : List InFrame) (i o : ℤ),
      List.Chain' (· < ·) ((convertLoop fpsIn fpsOut frames i o).map Prod.fst)
  | [], i, o => by simp [convertLoop]
  | f :: rest, i, o => by
    rw [convertLoop]
    split
    · simp
    · split
      · split
        · simp
        · rw [List.map_cons]
          refine List.chain'_cons'.mpr ⟨?_, convertLoop_chain fpsIn fpsOut rest (i + 1) (o + 1)⟩
          intro b hb
          have hbmem : b ∈ (convertLoop fpsIn fpsOut rest (i + 1) (o + 1)).map Prod.fst :=
            List.mem_of_mem_head? hb
          obtain ⟨p, hpmem, hpb⟩ := List.mem_map.mp hbmem
          have := convertLoop_fst_gt fpsIn fpsOut rest (i + 1) (o + 1) p hpmem
          simp only []
          omega
      · exact convertLoop_chain fpsIn fpsOut rest (i + 1) o

/-- The `k`-th output frame (counting from zero) comes from an input frame
whose `out_due` value strictly exceeds `o + k`, the output counter in force
when that frame was reached. -/
theorem convertLoop_due_gt (fpsIn : ℚ) (fpsOut : ℕ) :
    ∀ (frames : List InFrame) (i o : ℤ) (k : ℕ) (p : ℤ × String),
      (convertLoop fpsIn fpsOut frames i o)[k]? = some p →
      o + k < dueAt fpsIn fpsOut p.1
  | [], i, o, k, p, hp => by simp [convertLoop] at hp
  | f :: rest, i, o, k, p, hp => by
    rw [convertLoop] at hp
    split at hp
    · simp at hp
    · rename_i hgrab
      split at hp
      · rename_i hdue
        split at hp
        · simp at hp
        · match k with
          | 0 =>
            rw [List.getElem?_cons_zero] at hp
            obtain rfl : (i + 1, f.data) = p := Option.some.inj hp
            simpa using hdue
          | k + 1 =>
            rw [List.getElem?_cons_succ] at hp
            have := convertLoop_due_gt fpsIn fpsOut rest (i + 1) (o + 1) k p hp
            push_cast
            push_cast at this
            linarith
      · have := convertLoop_due_gt fpsIn fpsOut rest (i + 1) o k p hp
        exact this

/-- A failing `grab` ends the loop: nothing after that frame can influence
the result, whatever happened before it. -/
theorem convertLoop_grabFail (fpsIn : ℚ) (fpsOut : ℕ) (f : InFrame)
    (hf : f.grabOk = false) :
    ∀ (pre rest : List InFrame) (i o : ℤ),
      convertLoop fpsIn fpsOut (pre ++ f :: rest) i o
        = convertLoop fpsIn fpsOut pre i o
  | [], rest, i, o => by simp [convertLoop, hf]
  | g :: pre, rest, i, o => by
    rw [List.cons_append, convertLoop, convertLoop]
    split
    · rfl
    · split
      · split
        · rfl
        · rw [convertLoop_grabFail fpsIn fpsOut f hf pre rest (i + 1) (o + 1)]
      · exact convertLoop_grabFail fpsIn fpsOut f hf pre rest (i + 1) o

/-- Processing a fully decodable prefix first, the loop continues on the
suffix from the counters `loopState` computes for that prefix. -/
theorem convertLoop_append_ok (fpsIn : ℚ) (fpsOut : ℕ) :
    ∀ (pre : List InFrame),
      (∀ g ∈ pre, g.grabOk = true ∧ g.retrieveOk = true) →
    ∀ (suf : List InFrame) (i o : ℤ),
      convertLoop fpsIn fpsOut (pre ++ suf) i o
        = convertLoop fpsIn fpsOut pre i o
          ++ convertLoop fpsIn fpsOut suf
              (loopState fpsIn fpsOut pre (i, o)).1
              (loopState fpsIn fpsOut pre (i, o)).2
  | [], _, suf, i, o => by simp [convertLoop, loopState]
  | g :: pre, hok, suf, i, o => by
    obtain ⟨hg, hr⟩ := hok g (List.mem_cons_self g pre)
    have hpre : ∀ g2 ∈ pre, g2.grabOk = true ∧ g2.retrieveOk = true :=
      fun g2 h2 => hok g2 (List.mem_cons_of_mem g h2)
    rw [List.cons_append, convertLoop, convertLoop, loopState]
    by_cases hdue : o < dueAt fpsIn fpsOut (i + 1)
    · rw [convertLoop_append_ok fpsIn fpsOut pre hpre suf (i + 1) (o + 1)]
      simp [hg, hr, hdue]
    · rw [convertLoop_append_ok fpsIn fpsOut pre hpre suf (i + 1) o]
      simp [hg, hr, hdue]

/-- A failing `retrieve` on a frame that is due ends the loop with no
further output. -/
theorem convertLoop_retrieveFail (fpsIn : ℚ) (fpsOut : ℕ) (f : InFrame)
    (rest : List InFrame) (i o : ℤ) (hg : f.grabOk = true)
    (hr : f.retrieveOk = false) (hdue : o < dueAt fpsIn fpsOut (i + 1)) :
    convertLoop fpsIn fpsOut (f :: rest) i o = [] := by
  rw [convertLoop]
  simp [hg, hr, hdue]

/-! ## Playback-loop lemmas -/

/-- Started from a non-negative `delta`, the loop never drives `delta`
negative: the drop branch requires `delta >= period` before subtracting,
and the render branch only ever adds `abs est`. -/
theorem playLoop_deltaAfter_nonneg (period : ℚ) :
    ∀ (video : List (String × ℚ)) (delta : ℚ), 0 ≤ delta →
      ∀ ev ∈ playLoop period video delta, 0 ≤ ev.deltaAfter
  | [], _, _, ev, hev => by simp [playLoop] at hev
  | (f, e) :: rest, delta, hd, ev, hev => by
    rw [playLoop] at hev
    split at hev
    · rename_i hge
      rcases List.mem_cons.mp hev with h | h
      · rw [h]
        simp only [LoopEv.deltaAfter]
        linarith
      · exact playLoop_deltaAfter_nonneg period rest (delta - period)
          (by linarith) ev h
    · rcases List.mem_cons.mp hev with h | h
      · rw [h]
        simp only [LoopEv.deltaAfter]
        split
        · rename_i hlt
          linarith
        · exact hd
      · refine playLoop_deltaAfter_nonneg period rest _ ?_ ev h
        split
        · rename_i hlt
          linarith
        · exact hd

/-- Every drop event subtracts exactly one frame period from `delta`. -/
theorem playLoop_drop_eq (period : ℚ) :
    ∀ (video : List (String × ℚ)) (delta db da : ℚ),
      LoopEv.drop db da ∈ playLoop period video delta → da = db - period
  | [], _, db, da, hev => by simp [playLoop] at hev
  | (f, e) :: rest, delta, db, da, hev => by
    rw [playLoop] at hev
    split at hev
    · rcases List.mem_cons.mp hev with h | h
      · obtain ⟨h1, h2⟩ := by exact LoopEv.drop.inj h
        rw [h1, h2]
      · exact playLoop_drop_eq period rest (delta - period) db da h
    · rcases List.mem_cons.mp hev with h | h
      · exact absurd h (by simp)
      · exact playLoop_drop_eq period rest _ db da h

/-- Every render event sleeps a non-negative duration: the source sleeps
`max(est, 0)`. -/
theorem playLoop_render_sleep_nonneg (period : ℚ) :
    ∀ (video : List (String × ℚ)) (delta : ℚ) (f : String) (s db da : ℚ),
      LoopEv.render f s db da ∈ playLoop period video delta → 0 ≤ s
  | [], _, f, s, db, da, hev => by simp [playLoop] at hev
  | (f0, e) :: rest, delta, f, s, db, da, hev => by
    rw [playLoop] at hev
    split at hev
    · rcases List.mem_cons.mp hev with h | h
      · exact absurd h (by simp)
      · exact playLoop_render_sleep_nonneg period rest _ f s db da h
    · rcases List.mem_cons.mp hev with h | h
      · have hs : s = max (period - e) 0 := by
          have := LoopEv.render.inj h
          exact this.2.1
        rw [hs]
        exact le_max_right _ _
      · exact playLoop_render_sleep_nonneg period rest _ f s db da h

/-! ## Event-trace lemmas -/

/-- The frame loop emits only render, frame-sleep and drop events. -/
theorem mem_evOfLoop (lev : LoopEv) (e : Ev) (he : e ∈ evOfLoop lev) :
    e = Ev.dropFrameEv ∨ (∃ f, e = Ev.renderEv f) ∨
      (∃ d, e = Ev.frameSleepEv d) := by
  cases lev with
  | drop db da =>
    simp only [evOfLoop, List.mem_singleton] at he
    exact Or.inl he
  | render f s db da =>
    simp only [evOfLoop, List.mem_cons, List.mem_singleton] at he
    rcases he with h | h | h
    · exact Or.inr (Or.inl ⟨f, h⟩)
    · exact Or.inr (Or.inr ⟨s, h⟩)
    · exact absurd h (by simp)

theorem not_mem_playLoopEvents (fps : ℕ) (video : List (String × ℚ)) (e : Ev)
    (hd : e ≠ Ev.dropFrameEv) (hr : ∀ f, e ≠ Ev.renderEv f)
    (hs : ∀ d, e ≠ Ev.frameSleepEv d) : e ∉ playLoopEvents fps video := by
  intro hmem
  rw [playLoopEvents, List.mem_flatMap] at hmem
  obtain ⟨lev, _, he⟩ := hmem
  rcases mem_evOfLoop lev e he with h | ⟨f, h⟩ | ⟨d, h⟩
  · exact hd h
  · exact hr f h
  · exact hs d h

theorem count_playLoopEvents_restore (fps : ℕ) (video : List (String × ℚ)) :
    (playLoopEvents fps video).count Ev.restoreFont = 0 :=
  List.count_eq_zero.mpr
    (not_mem_playLoopEvents fps video Ev.restoreFont (by simp)
      (fun f => by simp) (fun d => by simp))

theorem count_playLoopEvents_shutdown (fps : ℕ) (video : List (String × ℚ)) :
    (playLoopEvents fps video).count Ev.shutdownEv = 0 :=
  List.count_eq_zero.mpr
    (not_mem_playLoopEvents fps video Ev.shutdownEv (by simp)
      (fun f => by simp) (fun d => by simp))

theorem countRestore_playCore (fontSize fps : ℕ) (missPath : Bool)
    (video : List (String × ℚ)) :
    countRestore (playCore fontSize fps missPath video)
      = if missPath then 1 else 0 := by
  cases missPath <;>
    simp [countRestore, playCore, setupEvsMiss, List.count_append,
      List.count_cons, count_playLoopEvents_restore]

theorem countShutdown_playCore (fontSize fps : ℕ) (missPath : Bool)
    (video : List (String × ℚ)) :
    countShutdown (playCore fontSize fps missPath video) = 0 := by
  cases missPath <;>
    simp [countShutdown, playCore, setupEvsMiss, List.count_append,
      List.count_cons, count_playLoopEvents_shutdown]

theorem count_take_le (tr : List Ev) (k : ℕ) (e : Ev) :
    (tr.take k).count e ≤ tr.count e :=
  (List.take_sublist k tr).count_le e

/-- Neither the transcoder nor audio extraction is called anywhere in a
cache-hit session, on any exit path. -/
theorem not_mem_hit_session (fontSize fps : ℕ) (video : List (String × ℚ))
    (exit : ExitKind) (e : Ev) (ha : e ≠ Ev.adjustFont fontSize)
    (hp : e ≠ Ev.playsoundEv) (hsh : e ≠ Ev.shutdownEv)
    (hre : e ≠ Ev.restoreFont) (hd : e ≠ Ev.dropFrameEv)
    (hr : ∀ f, e ≠ Ev.renderEv f) (hs : ∀ d, e ≠ Ev.frameSleepEv d) :
    e ∉ playSession (playCore fontSize fps false video) exit := by
  have hcore : e ∉ playCore fontSize fps false video := by
    rw [playCore, if_neg (by decide : ¬(false = true)), List.nil_append]
    intro hmem
    rcases List.mem_cons.mp hmem with h | hmem2
    · exact ha h
    rcases List.mem_cons.mp hmem2 with h | hmem3
    · exact hp h
    exact not_mem_playLoopEvents fps video e hd hr hs hmem3
  have hshut : e ∉ shutdownEvs := by
    intro hmem
    rcases List.mem_cons.mp hmem with h | hmem2
    · exact hsh h
    rcases List.mem_cons.mp hmem2 with h | hmem3
    · exact hre h
    exact absurd hmem3 (List.not_mem_nil e)
  cases exit with
  | normal =>
    rw [playSession, List.mem_append]
    push_neg
    exact ⟨hcore, hshut⟩
  | interruptAt k =>
    rw [playSession, List.mem_append]
    push_neg
    exact ⟨fun h => hcore (List.take_subset k _ h), hshut⟩
  | errorAt k =>
    rw [playSession]
    exact fun h => hcore (List.take_subset k _ h)

/-! ## Cache-store lemmas -/

/-- Entries whose checksum does not match are scanned past. -/
theorem lookupEntries_append_no_match (checksum : String)
    (blobs : String → Option (List String)) :
    ∀ (pre : List CacheEntry), (∀ e2 ∈ pre, e2.md5 ≠ some checksum) →
    ∀ (rest : List CacheEntry),
      lookupEntries checksum blobs (pre ++ rest)
        = lookupEntries checksum blobs rest
  | [], _, rest => by simp
  | e :: pre, hpre, rest => by
    rw [List.cons_append, lookupEntries,
      if_neg (hpre e (List.mem_cons_self e pre))]
    exact lookupEntries_append_no_match checksum blobs pre
      (fun e2 h2 => hpre e2 (List.mem_cons_of_mem e h2)) rest

/-! ## Terminal-adapter lemmas -/

/-- An `adjust_terminal_font_size` call never touches `backup_config`. -/
theorem adjust_backup_eq (st st2 : HyperState) (n : ℤ)
    (h : adjust_terminal_font_size st n = some st2) : st2.backup = st.backup := by
  rw [adjust_terminal_font_size] at h
  split at h
  · exact absurd h (by simp)
  · split at h
    · obtain rfl := Option.some.inj h
      rfl
    · obtain rfl := Option.some.inj h
      rfl

/-- No sequence of `adjust_terminal_font_size` calls touches
`backup_config`. -/
theorem runAdjusts_backup_eq :
    ∀ (ops : List ℤ) (st st2 : HyperState),
      runAdjusts ops st = some st2 → st2.backup = st.backup
  | [], st, st2, h => by
    obtain rfl := Option.some.inj h
    rfl
  | n :: ops, st, st2, h => by
    rw [runAdjusts] at h
    rcases ha : adjust_terminal_font_size st n with _ | st1
    · rw [ha] at h
      exact absurd h (by simp)
    · rw [ha] at h
      rw [show (some st1).bind (runAdjusts ops) = runAdjusts ops st1 from rfl] at h
      rw [runAdjusts_backup_eq ops st1 st2 h, adjust_backup_eq st st1 n ha]

/-! ## Session-count lemmas -/

theorem countRestore_append_shutdown (tr : List Ev) :
    countRestore (tr ++ shutdownEvs) = countRestore tr + 1 := by
  have h1 : shutdownEvs.count Ev.restoreFont = 1 := by decide
  rw [countRestore, countRestore, List.count_append, h1]

theorem countShutdown_append_shutdown (tr : List Ev) :
    countShutdown (tr ++ shutdownEvs) = countShutdown tr + 1 := by
  have h1 : shutdownEvs.count Ev.shutdownEv = 1 := by decide
  rw [countShutdown, countShutdown, List.count_append, h1]

theorem countShutdown_take_zero (tr : List Ev) (k : ℕ)
    (h : countShutdown tr = 0) : countShutdown (tr.take k) = 0 := by
  have hle := count_take_le tr k Ev.shutdownEv
  rw [countShutdown] at h ⊢
  omega

theorem countRestore_take_zero (tr : List Ev) (k : ℕ)
    (h : countRestore tr = 0) : countRestore (tr.take k) = 0 := by
  have hle := count_take_le tr k Ev.restoreFont
  rw [countRestore] at h ⊢
  omega

/-! ## Claim theorems -/

/-- C1, counterexample.  The claim that `restore_terminal_font_size` runs
exactly once per session on every exit path is false on the code: a session
whose cache lookup misses restores the font twice on normal completion
(once while measuring the terminal width at player.py line 177, once in
`shutdown`), and a session ended by a non-`KeyboardInterrupt` error before
any restore happened restores it zero times, because `play` has no
`finally` and catches only `KeyboardInterrupt`. -/
theorem c1_counterexample :
    countRestore (runPlay .missing (fun _ => none) "c" [] [] 13 5 .normal)
        ≠ 1 ∧
      countRestore (runPlay .missing (fun _ => none) "c" [] [] 13 5
        (.errorAt 0)) = 0 := by
  decide

/-- C1, amended.  `shutdown` (and with it its font restore) runs exactly
once on normal completion and on `KeyboardInterrupt` at any point, and
never on any other exception.  Counting all `restore_terminal_font_size`
calls: a cache-hit session restores exactly once on the normal and
interrupt paths and zero times on the error path; a cache-miss session
restores twice on normal completion (the extra restore is the
terminal-width measurement of player.py line 177), between one and two
times on interruption, and a session whose cache lookup itself raises
(corrupt index) produces no events at all. -/
theorem c1_amended (fontSize fps : ℕ) (video : List (String × ℚ)) (k : ℕ)
    (missPath : Bool) :
    countShutdown (playSession (playCore fontSize fps missPath video) .normal)
        = 1 ∧
    countShutdown (playSession (playCore fontSize fps missPath video)
        (.interruptAt k)) = 1 ∧
    countShutdown (playSession (playCore fontSize fps missPath video)
        (.errorAt k)) = 0 ∧
    countRestore (playSession (playCore fontSize fps false video) .normal)
        = 1 ∧
    countRestore (playSession (playCore fontSize fps false video)
        (.interruptAt k)) = 1 ∧
    countRestore (playSession (playCore fontSize fps false video)
        (.errorAt k)) = 0 ∧
    countRestore (playSession (playCore fontSize fps true video) .normal)
        = 2 ∧
    1 ≤ countRestore (playSession (playCore fontSize fps true video)
        (.interruptAt k)) ∧
    countRestore (playSession (playCore fontSize fps true video)
        (.interruptAt k)) ≤ 2 ∧
    (∀ (blobs : String → Option (List String)) (c : String)
       (tr2 : List (String × ℚ)) (el : List ℚ) (ex : ExitKind),
      countRestore (runPlay .corrupt blobs c tr2 el fontSize fps ex) = 0) := by
  have hc0 : countRestore (playCore fontSize fps false video) = 0 := by
    rw [countRestore_playCore]
    simp
  have hc1 : countRestore (playCore fontSize fps true video) = 1 := by
    rw [countRestore_playCore]
    simp
  refine ⟨?_, ?_, ?_, ?_, ?_, ?_, ?_, ?_, ?_, ?_⟩
  · rw [playSession, countShutdown_append_shutdown, countShutdown_playCore]
  · rw [playSession, countShutdown_append_shutdown,
      countShutdown_take_zero _ k (countShutdown_playCore fontSize fps missPath video)]
  · rw [playSession]
    exact countShutdown_take_zero _ k (countShutdown_playCore fontSize fps missPath video)
  · rw [playSession, countRestore_append_shutdown, hc0]
  · rw [playSession, countRestore_append_shutdown,
      countRestore_take_zero _ k hc0]
  · rw [playSession]
    exact countRestore_take_zero _ k hc0
  · rw [playSession, countRestore_append_shutdown, hc1]
  · rw [playSession, countRestore_append_shutdown]
    omega
  · rw [playSession, countRestore_append_shutdown]
    have hle := count_take_le (playCore fontSize fps true video) k Ev.restoreFont
    rw [countRestore] at hc1
    rw [countRestore]
    omega
  · intro blobs c tr2 el ex
    rfl

/-- C2, counterexample.  The claim that `load_cache` returns `None` on a
corrupt/unparseable index file is false on the code: `json.loads` raises
and player.py line 76 does not catch it, so the call raises instead of
returning `None`. -/
theorem c2_counterexample :
    load_cache .corrupt ("abc123") (fun _ => none) ≠ .ok none :=
  fun h => Except.noConfusion h

/-- C2, amended.  A missing index file makes `load_cache` return `None`
(cold cache); a corrupt index file makes it raise the `json.loads` error,
which is fatal to the session because `_play` catches only `TypeError`. -/
theorem c2_amended (c : String) (blobs : String → Option (List String)) :
    load_cache .missing c blobs = .ok none ∧
      load_cache .corrupt c blobs = .error .jsonDecode :=
  ⟨rfl, rfl⟩

set_option maxRecDepth 8000 in
unseal Rat.mul Rat.inv in
/-- C3.  With a native rate of 30 fps, a requested rate of 2 fps and 90
fully decodable input frames, the transcoder keeps exactly the input frames
of indices 0, 15, 30, 45, 60 and 75, in order, and discards the rest. -/
theorem c3_scenarioA :
    (convertLoop 30 2 (allOk ((List.range 90).map toString)) (-1) (-1)).map
        Prod.fst = [0, 15, 30, 45, 60, 75] ∧
      convert_to_ansi 30 2 (allOk ((List.range 90).map toString))
        = ["0", "15", "30", "45", "60", "75"] := by
  decide

/-- C4.  For `fpsOut <= fpsIn` the decimation is monotonic: retained input
indices strictly increase; the `k`-th output frame comes from an input
frame whose `out_due` value strictly exceeds `k - 1`, the previous output
index (so no frame is emitted whose `due` does not exceed it); and on a
fully decodable stream frame `i` is retained exactly when its `out_due`
value exceeds the output counter in force when it is reached, which equals
`dueZ (i - 1)` (`-1` for the first frame). -/
theorem c4_decimation (fpsIn : ℚ) (fpsOut : ℕ) (frames : List InFrame)
    (hIn : 0 < fpsIn) (hle : (fpsOut : ℚ) ≤ fpsIn) :
    List.Chain' (· < ·)
        ((convertLoop fpsIn fpsOut frames (-1) (-1)).map Prod.fst) ∧
    (∀ (k : ℕ) (p : ℤ × String),
      (convertLoop fpsIn fpsOut frames (-1) (-1))[k]? = some p →
      (k : ℤ) - 1 < dueAt fpsIn fpsOut p.1) ∧
    (∀ (ds : List String) (i : ℕ), i < ds.length →
      ((i : ℤ) ∈ (convertLoop fpsIn fpsOut (allOk ds) (-1) (-1)).map Prod.fst
        ↔ dueZ fpsIn fpsOut ((i : ℤ) - 1) < dueZ fpsIn fpsOut (i : ℤ))) := by
  refine ⟨convertLoop_chain fpsIn fpsOut frames (-1) (-1), ?_, ?_⟩
  · intro k p hp
    have := convertLoop_due_gt fpsIn fpsOut frames (-1) (-1) k p hp
    linarith
  · intro ds i hi
    have hmain := convertLoop_allOk_fst fpsIn fpsOut hIn hle ds (-1)
      (by norm_num)
    rw [dueZ_neg_one] at hmain
    rw [hmain, List.mem_filter]
    constructor
    · rintro ⟨_, hpred⟩
      exact of_decide_eq_true hpred
    · intro hlt
      refine ⟨?_, decide_eq_true hlt⟩
      rw [List.mem_map]
      exact ⟨i, List.mem_range.mpr hi, by norm_num⟩

unseal Rat.mul Rat.inv in
/-- C4, witness at 30 fps in, 2 fps out, two decodable frames. -/
theorem c4_witness :
    (0 : ℚ) < 30 ∧ ((2 : ℕ) : ℚ) ≤ 30 ∧
    (List.Chain' (· < ·)
        ((convertLoop 30 2 (allOk ["a", "b"]) (-1) (-1)).map Prod.fst) ∧
    (∀ (k : ℕ) (p : ℤ × String),
      (convertLoop 30 2 (allOk ["a", "b"]) (-1) (-1))[k]? = some p →
      (k : ℤ) - 1 < dueAt 30 2 p.1) ∧
    (∀ (ds : List String) (i : ℕ), i < ds.length →
      ((i : ℤ) ∈ (convertLoop 30 2 (allOk ds) (-1) (-1)).map Prod.fst
        ↔ dueZ 30 2 ((i : ℤ) - 1) < dueZ 30 2 (i : ℤ)))) :=
  ⟨by norm_num, by norm_num,
    c4_decimation 30 2 (allOk ["a", "b"]) (by norm_num) (by norm_num)⟩

/-- C5.  Over any frame sequence with any rendering times and any positive
fps, drift (`delta`) never becomes negative, every sleep duration handed to
`sleep` is non-negative, and every dropped frame decreases drift by exactly
one frame period. -/
theorem c5_drift (fps : ℕ) (hfps : 0 < fps) (video : List (String × ℚ)) :
    (∀ ev ∈ playLoop (1 / (fps : ℚ)) video 0, 0 ≤ ev.deltaAfter) ∧
    (∀ (f : String) (s db da : ℚ),
      LoopEv.render f s db da ∈ playLoop (1 / (fps : ℚ)) video 0 → 0 ≤ s) ∧
    (∀ (db da : ℚ), LoopEv.drop db da ∈ playLoop (1 / (fps : ℚ)) video 0 →
      da = db - 1 / (fps : ℚ)) := by
  refine ⟨playLoop_deltaAfter_nonneg _ video 0 le_rfl, ?_, ?_⟩
  · intro f s db da h
    exact playLoop_render_sleep_nonneg _ video 0 f s db da h
  · intro db da h
    exact playLoop_drop_eq _ video 0 db da h

unseal Rat.mul Rat.inv Rat.add Rat.sub in
/-- C5, witness: a single frame at 5 fps rendering instantaneously. -/
theorem c5_witness :
    0 < 5 ∧
      0 ≤ (LoopEv.render ("f") (max (1 / (5 : ℚ) - 0) 0) 0 0).deltaAfter :=
  ⟨by decide, (c5_drift 5 (by decide) [("f", 0)]).1 _ (by decide)⟩

/-- C6.  When the index contains an entry whose `md5` equals the computed
checksum (and its blob is readable), `load_cache` returns that first
matching entry's stored frames and audio path, and the resulting session
never calls the transcoder or audio extraction, on any exit path. -/
theorem c6_cache_hit (pre post : List CacheEntry) (e : CacheEntry)
    (c : String) (blobs : String → Option (List String)) (d : List String)
    (hpre : ∀ e2 ∈ pre, e2.md5 ≠ some c) (he : e.md5 = some c)
    (hb : blobs e.video = some d) :
    load_cache (.entries (pre ++ e :: post)) c blobs
        = .ok (some (d, e.audio_path)) ∧
    (∀ (transcoded : List (String × ℚ)) (elapsed : List ℚ)
       (fontSize fps : ℕ) (exit : ExitKind),
      Ev.convertEv ∉ runPlay (.entries (pre ++ e :: post)) blobs c
          transcoded elapsed fontSize fps exit ∧
      Ev.extractAudioEv ∉ runPlay (.entries (pre ++ e :: post)) blobs c
          transcoded elapsed fontSize fps exit) := by
  have hload : load_cache (.entries (pre ++ e :: post)) c blobs
      = .ok (some (d, e.audio_path)) := by
    rw [load_cache, lookupEntries_append_no_match c blobs pre hpre,
      lookupEntries, if_pos he, hb]
  refine ⟨hload, ?_⟩
  intro transcoded elapsed fontSize fps exit
  constructor
  · rw [runPlay, hload]
    exact not_mem_hit_session fontSize fps (d.zip elapsed) exit Ev.convertEv
      (by simp) (by simp) (by simp) (by simp) (by simp)
      (fun f => by simp) (fun d2 => by simp)
  · rw [runPlay, hload]
    exact not_mem_hit_session fontSize fps (d.zip elapsed) exit
      Ev.extractAudioEv (by simp) (by simp) (by simp) (by simp) (by simp)
      (fun f => by simp) (fun d2 => by simp)

/-- C6, witness: spec Scenario B, a one-entry index matching checksum
`abc123`. -/
theorem c6_witness :
    (∀ e2 ∈ ([] : List CacheEntry), e2.md5 ≠ some ("abc123")) ∧
    exampleEntry.md5 = some ("abc123") ∧
    exampleBlobs exampleEntry.video = some ["frame0"] ∧
    load_cache (.entries ([] ++ exampleEntry :: [])) "abc123" exampleBlobs
      = .ok (some (["frame0"], exampleEntry.audio_path)) :=
  ⟨by simp, rfl, by decide,
    (c6_cache_hit [] [] exampleEntry ("abc123") exampleBlobs ["frame0"]
      (by simp) rfl (by decide)).1⟩

/-- C7.  On a non-corrupt index, `save_cache` writes the frame sequence to
the blob named by the fresh identifier, appends exactly one entry
`{name, blobRef, audioPath, checksum}` to the index while keeping every
existing entry (and every other blob) unchanged, the fresh blob path
collides with no existing entry, and a missing index file ends up holding
exactly one entry. -/
theorem c7_store (st : CacheState) (uuid name checksum : String)
    (data : List String) (audioPath : String)
    (hnc : st.index ≠ .corrupt)
    (hfresh : ∀ e2 ∈ oldEntries st.index, e2.video ≠ blobPathOf uuid) :
    ∃ st2, save_cache st uuid name checksum data audioPath = .ok st2 ∧
      st2.index = .entries (oldEntries st.index
        ++ [⟨name, blobPathOf uuid, audioPath, some checksum⟩]) ∧
      st2.blobs (blobPathOf uuid) = some data ∧
      (∀ p, p ≠ blobPathOf uuid → st2.blobs p = st.blobs p) ∧
      (∀ e2 ∈ oldEntries st.index, e2.video ≠ blobPathOf uuid) ∧
      (st.index = .missing →
        st2.index
          = .entries [⟨name, blobPathOf uuid, audioPath, some checksum⟩]) := by
  refine ⟨⟨.entries (oldEntries st.index
        ++ [⟨name, blobPathOf uuid, audioPath, some checksum⟩]),
      fun p => if p = blobPathOf uuid then some data else st.blobs p⟩,
    ?_, rfl, ?_, ?_, hfresh, ?_⟩
  · rw [save_cache, if_neg hnc]
  · simp
  · intro p hp
    simp [if_neg hp]
  · intro hm
    rw [hm]
    rfl

/-- C7, witness: spec Scenario C, storing into a missing index file. -/
theorem c7_witness :
    ((⟨.missing, fun _ => none⟩ : CacheState).index ≠ .corrupt) ∧
    (∀ e2 ∈ oldEntries (⟨.missing, fun _ => none⟩ : CacheState).index,
      e2.video ≠ blobPathOf ("u1")) ∧
    (∃ st2, save_cache ⟨.missing, fun _ => none⟩ "u1" "vid" "abc" ["f"]
        "a.mp3" = .ok st2 ∧
      st2.index = .entries (oldEntries
          (⟨.missing, fun _ => none⟩ : CacheState).index
        ++ [⟨"vid", blobPathOf ("u1"), "a.mp3", some ("abc")⟩]) ∧
      st2.blobs (blobPathOf ("u1")) = some ["f"] ∧
      (∀ p, p ≠ blobPathOf ("u1") →
        st2.blobs p = (⟨.missing, fun _ => none⟩ : CacheState).blobs p) ∧
      (∀ e2 ∈ oldEntries (⟨.missing, fun _ => none⟩ : CacheState).index,
        e2.video ≠ blobPathOf ("u1")) ∧
      ((⟨.missing, fun _ => none⟩ : CacheState).index = .missing →
        st2.index = .entries [⟨"vid", blobPathOf ("u1"), "a.mp3", some ("abc")⟩])) :=
  ⟨by simp, by simp [oldEntries],
    c7_store ⟨.missing, fun _ => none⟩ "u1" "vid" "abc" ["f"] "a.mp3"
      (by simp) (by simp [oldEntries])⟩

/-- C8.  If `grab` fails at some frame, or `retrieve` fails at a frame that
is due for decoding (after a fully decodable prefix), the transcoder stops
and returns exactly the frames accumulated before the failure, in order,
regardless of what follows. -/
theorem c8_partial_failure (fpsIn : ℚ) (fpsOut : ℕ) (pre : List InFrame)
    (f : InFrame) (rest : List InFrame)
    (hpre : ∀ g ∈ pre, g.grabOk = true ∧ g.retrieveOk = true)
    (hfail : f.grabOk = false ∨
      (f.grabOk = true ∧ f.retrieveOk = false ∧
        (loopState fpsIn fpsOut pre (-1, -1)).2
          < dueAt fpsIn fpsOut ((loopState fpsIn fpsOut pre (-1, -1)).1 + 1))) :
    convert_to_ansi fpsIn fpsOut (pre ++ f :: rest)
      = convert_to_ansi fpsIn fpsOut pre := by
  rw [convert_to_ansi, convert_to_ansi]
  rcases hfail with hf | ⟨hg, hr, hdue⟩
  · rw [convertLoop_grabFail fpsIn fpsOut f hf pre rest (-1) (-1)]
  · rw [convertLoop_append_ok fpsIn fpsOut pre hpre (f :: rest) (-1) (-1),
      convertLoop_retrieveFail fpsIn fpsOut f rest _ _ hg hr hdue,
      List.append_nil]

unseal Rat.mul Rat.inv in
/-- C8, witness: one good frame, then a failing `grab`, then another frame
that is consequently never reached. -/
theorem c8_witness :
    (∀ g ∈ [(⟨true, true, "a"⟩ : InFrame)],
      g.grabOk = true ∧ g.retrieveOk = true) ∧
    ((⟨false, true, "x"⟩ : InFrame).grabOk = false ∨
      ((⟨false, true, "x"⟩ : InFrame).grabOk = true ∧
        (⟨false, true, "x"⟩ : InFrame).retrieveOk = false ∧
        (loopState 30 2 [⟨true, true, "a"⟩] (-1, -1)).2
          < dueAt 30 2 ((loopState 30 2 [⟨true, true, "a"⟩] (-1, -1)).1 + 1))) ∧
    convert_to_ansi 30 2
        ([⟨true, true, "a"⟩] ++ (⟨false, true, "x"⟩ : InFrame)
          :: [⟨true, true, "b"⟩])
      = convert_to_ansi 30 2 [⟨true, true, "a"⟩] :=
  ⟨by decide, Or.inl rfl,
    c8_partial_failure 30 2 [⟨true, true, "a"⟩] ⟨false, true, "x"⟩
      [⟨true, true, "b"⟩] (by decide) (Or.inl rfl)⟩

/-- C9.  The Hyper adapter is a no-op (no config rewrite, no file write)
when asked for the size already configured, and after any sequence of
adjustments that does not raise, `restore_terminal_font_size` puts back
exactly the config captured when the adapter was constructed, both in
memory and in the file it writes. -/
theorem c9_adapter :
    (∀ (st : HyperState) (n : ℤ), parseFontSize st.config = some n →
      adjust_terminal_font_size st n = some st) ∧
    (∀ (f : List Char) (ops : List ℤ) (st2 : HyperState),
      runAdjusts ops (initHyper f) = some st2 →
      (restore_terminal_font_size st2).config = f ∧
      (restore_terminal_font_size st2).written.head? = some f) := by
  constructor
  · intro st n hp
    rw [adjust_terminal_font_size, hp]
    simp
  · intro f ops st2 h
    have hb : st2.backup = f := runAdjusts_backup_eq ops (initHyper f) st2 h
    constructor
    · show st2.backup = f
      exact hb
    · show (st2.backup :: st2.written).head? = some f
      rw [hb]
      rfl

/-- C9, witness: a config at size 12; adjusting to 12 is a no-op, and after
adjusting to 14 the restore writes back the original config. -/
theorem c9_witness :
    parseFontSize (initHyper exampleHyperConfig).config = some 12 ∧
    adjust_terminal_font_size (initHyper exampleHyperConfig) 12
      = some (initHyper exampleHyperConfig) ∧
    runAdjusts [14] (initHyper exampleHyperConfig)
      = some ⟨"fontSize: 14,".data, exampleHyperConfig,
          ["fontSize: 14,".data]⟩ ∧
    (restore_terminal_font_size
        ⟨"fontSize: 14,".data, exampleHyperConfig,
          ["fontSize: 14,".data]⟩).config = exampleHyperConfig ∧
    (restore_terminal_font_size
        ⟨"fontSize: 14,".data, exampleHyperConfig,
          ["fontSize: 14,".data]⟩).written.head?
      = some exampleHyperConfig :=
  ⟨by decide, c9_adapter.1 (initHyper exampleHyperConfig) 12 (by decide),
    by decide,
    (c9_adapter.2 exampleHyperConfig [14] _ (by decide)).1,
    (c9_adapter.2 exampleHyperConfig [14] _ (by decide)).2⟩

/-- C10.  With an empty frame sequence the playback loop emits no events at
all — nothing rendered, nothing dropped, no sleeps — so on either cache arm
the session trace ends immediately after `playsound` with the single
`shutdown` call and its font restore, and `play` completes normally. -/
theorem c10_empty_video (fontSize fps : ℕ) (missPath : Bool) :
    playLoop (1 / (fps : ℚ)) ([] : List (String × ℚ)) 0 = [] ∧
    playLoopEvents fps [] = [] ∧
    playSession (playCore fontSize fps missPath []) .normal
      = (if missPath then setupEvsMiss fontSize else [])
          ++ [Ev.adjustFont fontSize, Ev.playsoundEv, Ev.shutdownEv,
            Ev.restoreFont] ∧
    countShutdown (playSession (playCore fontSize fps missPath []) .normal)
      = 1 ∧
    (playSession (playCore fontSize fps missPath []) .normal).countP
      isRenderEv = 0 ∧
    (playSession (playCore fontSize fps missPath []) .normal).countP
      isDropEv = 0 ∧
    (playSession (playCore fontSize fps missPath []) .normal).countP
      isFrameSleepEv = 0 := by
  have h1 : playLoop (1 / (fps : ℚ)) ([] : List (String × ℚ)) 0 = [] := rfl
  have h2 : playLoopEvents fps [] = [] := rfl
  have h3 : playSession (playCore fontSize fps missPath []) .normal
      = (if missPath then setupEvsMiss fontSize else [])
        ++ [Ev.adjustFont fontSize, Ev.playsoundEv, Ev.shutdownEv,
          Ev.restoreFont] := by
    rw [playSession, playCore, h2]
    cases missPath <;> rfl
  refine ⟨h1, h2, h3, ?_, ?_, ?_, ?_⟩ <;> rw [h3] <;> cases missPath <;>
    simp [countShutdown, setupEvsMiss, isRenderEv, isDropEv, isFrameSleepEv,
      List.count_cons, List.countP_cons]

end TPlayer
